import Mathlib

/-!
Formal model of the tax-lot matching engine in `src/coinbase_pro_accounting.py`.

The Python module pairs SELL orders with open BUY lots under per-year HIFO or
FIFO accounting.  Every definition below is a direct translation of the Python
source: floats become exact rationals, the mutable `current_buys` list becomes
explicit state passing, Python exceptions (assertion failures and dictionary
key errors) become an `Except` error type, and the stable Python `list.sort`
becomes `List.insertionSort`, which is likewise stable; for a total preorder a
stable sort is unique, so the two agree.
-/

/-- Timestamp of an order.  A Python `datetime` compares by instant (`sec`, the
absolute time in seconds), exposes its calendar `year`, and subtraction of two
datetimes yields a `timedelta` whose `days` attribute is the floor of the
difference in whole days. -/
structure DateTime where
  year : Int
  sec : Int
deriving DecidableEq, Repr

/-- One trade record as the engine reads it: the CSV fields used by
`pair_sales_with_buys`.  The loader converts `size` and `price` to numbers but
leaves `trade id` as a string. -/
structure Order where
  tradeId : String
  side : String
  size : Rat
  price : Rat
deriving DecidableEq, Repr

/-- An order tagged with its timestamp, mirroring the `(date_time, o)` pairs
that the loader hands to `pair_sales_with_buys`. -/
abbrev DOrder := DateTime × Order

/-- Copy of an order with its `size` replaced, as the source does when it
mutates or copies a row dictionary and overwrites `size`. -/
def Order.withSize (o : Order) (s : Rat) : Order :=
  ⟨o.tradeId, o.side, s, o.price⟩

/-- Errors a run can raise: Python assertion failures (carrying the assertion
message, empty when the `assert` statement has none) and dictionary lookup
failures (carrying the missing key, as `KeyError` does). -/
inductive PyError where
  | assertionError (msg : String)
  | keyError (year : Int)
deriving DecidableEq, Repr

/-- The `Accounting` enum of the source: the lot-selection policies. -/
inductive Accounting where
  | HIFO
  | FIFO
deriving DecidableEq, Repr

/-- Whole-day difference `(a - b).days` of two Python datetimes: the floor of
the difference in days (86400 seconds each). -/
def timedeltaDays (a b : DateTime) : Int :=
  Int.fdiv (a.sec - b.sec) 86400

/-- The `PairedSale` record of the source: one matched pair, covering a
quantity of the sale fragment with the equal quantity of the buy fragment. -/
structure PairedSale where
  saleDate : DateTime
  saleOrder : Order
  buyDate : DateTime
  buyOrder : Order
  accountingMethod : Accounting
  netProceeds : Rat
  costBasis : Rat
  shortTermGains : Rat
  longTermGains : Rat
deriving DecidableEq, Repr

/-- Constructor `PairedSale.__init__`: checks that the fragment sizes agree
(the `assert` in the source), computes proceeds, basis and the short/long
split of the gain.  The deep copies taken by the source are value copies
here. -/
def mkPairedSale (saleDate : DateTime) (saleOrder : Order) (buyDate : DateTime)
    (buyOrder : Order) (acct : Accounting) : Except PyError PairedSale :=
  if saleOrder.size = buyOrder.size then
    let netProceeds := saleOrder.size * saleOrder.price
    let costBasis := buyOrder.size * buyOrder.price
    let gainLoss := netProceeds - costBasis
    if timedeltaDays saleDate buyDate > 365 then
      .ok ⟨saleDate, saleOrder, buyDate, buyOrder, acct, netProceeds, costBasis, 0, gainLoss⟩
    else
      .ok ⟨saleDate, saleOrder, buyDate, buyOrder, acct, netProceeds, costBasis, gainLoss, 0⟩
  else
    .error (.assertionError "")

/-- Comparison used by every chronological sort in the source:
`key=lambda x: (x[0], x[1]["trade id"])`, lexicographic on
(timestamp, trade id). -/
def chronoRel (a b : DOrder) : Prop :=
  a.1.sec < b.1.sec ∨ (a.1.sec = b.1.sec ∧ a.2.tradeId ≤ b.2.tradeId)

instance : DecidableRel chronoRel := fun a b => by
  unfold chronoRel; infer_instance

instance : IsTotal DOrder chronoRel := by
  constructor
  intro a b
  unfold chronoRel
  rcases lt_trichotomy a.1.sec b.1.sec with h | h | h
  · exact Or.inl (Or.inl h)
  · rcases le_total a.2.tradeId b.2.tradeId with h2 | h2
    · exact Or.inl (Or.inr ⟨h, h2⟩)
    · exact Or.inr (Or.inr ⟨h.symm, h2⟩)
  · exact Or.inr (Or.inl h)

instance : IsTrans DOrder chronoRel := by
  constructor
  intro a b c hab hbc
  unfold chronoRel at *
  rcases hab with h1 | ⟨h1, h2⟩ <;> rcases hbc with h3 | ⟨h3, h4⟩
  · exact Or.inl (h1.trans h3)
  · exact Or.inl (lt_of_lt_of_eq h1 h3)
  · exact Or.inl (lt_of_eq_of_lt h1 h3)
  · exact Or.inr ⟨h1.trans h3, le_trans h2 h4⟩

/-- Comparison used by the HIFO reorder:
`current_buys.sort(key=lambda x: x[1]["price"], reverse=True)`, descending by
price.  Python sorting is stable, so among equal prices the prior relative
order is kept, exactly as `List.insertionSort` keeps it. -/
def hifoRel (a b : DOrder) : Prop :=
  b.2.price ≤ a.2.price

instance : DecidableRel hifoRel := fun a b => by
  unfold hifoRel; infer_instance

instance : IsTotal DOrder hifoRel :=
  ⟨fun a b => le_total b.2.price a.2.price⟩

instance : IsTrans DOrder hifoRel :=
  ⟨fun _ _ _ hab hbc => le_trans hbc hab⟩

/-- The `while o["size"]:` loop of the source, with the ledger list passed
explicitly.  Returns the sale order after its final mutation, the buys that
remain, and the pairs emitted for this sale in emission order.  The
`assert current_buys` failure becomes the error carrying the assertion
message (its apostrophe elided). -/
def coverSale (saleDate : DateTime) (acct : Accounting) :
    Order → List DOrder → Except PyError (Order × List DOrder × List PairedSale)
  | sale, [] =>
    if sale.size = 0 then .ok (sale, [], [])
    else .error (.assertionError "current_buys cannot cover total_sold")
  | sale, (cdt, cb) :: rest =>
    if sale.size = 0 then .ok (sale, (cdt, cb) :: rest, [])
    else if cb.size ≤ sale.size then
      match mkPairedSale saleDate (sale.withSize cb.size) cdt cb acct with
      | .error e => .error e
      | .ok p =>
        match coverSale saleDate acct (sale.withSize (sale.size - cb.size)) rest with
        | .error e => .error e
        | .ok (sale1, buys1, ps) => .ok (sale1, buys1, p :: ps)
    else
      match mkPairedSale saleDate sale cdt (cb.withSize sale.size) acct with
      | .error e => .error e
      | .ok p =>
        .ok (sale.withSize 0, (cdt, cb.withSize (cb.size - sale.size)) :: rest, [p])

/-- State of the matching loop: the open lots `current_buys` and the emitted
`paired_sales` in emission order. -/
structure MatcherState where
  currentBuys : List DOrder
  pairedSales : List PairedSale
deriving DecidableEq, Repr

/-- One iteration of the `for date_time, o in orders_to_process` loop: the side
assertion, the BUY append, or the SELL branch (policy lookup for the sale
year, reorder of the open lots by that policy, covering loop). -/
def processOrder (pm : List (Int × Accounting)) (st : MatcherState) (x : DOrder) :
    Except PyError MatcherState :=
  if x.2.side = "BUY" ∨ x.2.side = "SELL" then
    if x.2.side = "BUY" then
      .ok ⟨st.currentBuys ++ [x], st.pairedSales⟩
    else
      match List.lookup x.1.year pm with
      | none => .error (.keyError x.1.year)
      | some acct =>
        let sorted :=
          if acct = Accounting.HIFO then List.insertionSort hifoRel st.currentBuys
          else List.insertionSort chronoRel st.currentBuys
        match coverSale x.1 acct x.2 sorted with
        | .error e => .error e
        | .ok (_, buys1, ps) => .ok ⟨buys1, st.pairedSales ++ ps⟩
  else
    .error (.assertionError "")

/-- The full loop over `orders_to_process`; the first raised exception aborts
the run, as an uncaught Python exception does. -/
def processOrders (pm : List (Int × Accounting)) :
    MatcherState → List DOrder → Except PyError MatcherState
  | st, [] => .ok st
  | st, x :: rest =>
    match processOrder pm st x with
    | .error e => .error e
    | .ok st1 => processOrders pm st1 rest

/-- Orders sorted chronologically: the first statement of
`pair_sales_with_buys`, a stable sort on the key `(timestamp, trade id)`. -/
def sortedOrders (orders : List DOrder) : List DOrder :=
  List.insertionSort chronoRel orders

/-- In-window orders (`date_time.year <= max_year`) in chronological order:
the `orders_to_process` list built by the partition loop of the source. -/
def ordersToProcess (orders : List DOrder) (maxYear : Int) : List DOrder :=
  (sortedOrders orders).filter fun x => decide (x.1.year ≤ maxYear)

/-- Ignored orders (`date_time.year > max_year`), passed through untouched. -/
def ordersToIgnore (orders : List DOrder) (maxYear : Int) : List DOrder :=
  (sortedOrders orders).filter fun x => decide (maxYear < x.1.year)

/-- Sum of the `size` fields of a list of dated orders. -/
def sumSizes (l : List DOrder) : Rat :=
  (l.map fun x => x.2.size).sum

/-- Sum of the sale-fragment sizes of a list of pairs, the `total_sale_size`
of the validation step. -/
def sumSaleFrag (ps : List PairedSale) : Rat :=
  (ps.map fun p => p.saleOrder.size).sum

/-- Sum of the buy-fragment sizes of a list of pairs. -/
def sumBuyFrag (ps : List PairedSale) : Rat :=
  (ps.map fun p => p.buyOrder.size).sum

/-- Running total `original_total_buy_size`: sizes of in-window BUY orders. -/
def originalTotalBuySize (orders : List DOrder) (maxYear : Int) : Rat :=
  sumSizes ((ordersToProcess orders maxYear).filter fun x => decide (x.2.side = "BUY"))

/-- The engine `pair_sales_with_buys`: sort, split off orders newer than
`max_year`, run the matching loop, re-sort the surviving lots
chronologically, check conservation
(`assert original - modified - sold < 0.000001`, exactly the one-sided
comparison of the source), and return the remaining orders (surviving lots
then ignored orders) together with the paired sales. -/
def pairSalesWithBuys (orders : List DOrder) (pm : List (Int × Accounting))
    (maxYear : Int) : Except PyError (List DOrder × List PairedSale) :=
  match processOrders pm ⟨[], []⟩ (ordersToProcess orders maxYear) with
  | .error e => .error e
  | .ok st =>
    let currentBuys := List.insertionSort chronoRel st.currentBuys
    if originalTotalBuySize orders maxYear - sumSizes currentBuys - sumSaleFrag st.pairedSales
        < (1 : Rat) / 1000000 then
      .ok (currentBuys ++ ordersToIgnore orders maxYear, st.pairedSales)
    else
      .error (.assertionError "")

/-- Ascending lexicographic comparison of the draw keys `(timestamp, trade
id)` recorded in emitted pairs. -/
def fifoKeyRel (a b : Int × String) : Prop :=
  a.1 < b.1 ∨ (a.1 = b.1 ∧ a.2 ≤ b.2)

@[simp] theorem Order.withSize_tradeId (o : Order) (s : Rat) : (o.withSize s).tradeId = o.tradeId := rfl

@[simp] theorem Order.withSize_side (o : Order) (s : Rat) : (o.withSize s).side = o.side := rfl

@[simp] theorem Order.withSize_size (o : Order) (s : Rat) : (o.withSize s).size = s := rfl

@[simp] theorem Order.withSize_price (o : Order) (s : Rat) : (o.withSize s).price = o.price := rfl

theorem mkPairedSale_isOk (sd : DateTime) (so : Order) (bd : DateTime) (bo : Order)
    (a : Accounting) (h : so.size = bo.size) :
    ∃ p, mkPairedSale sd so bd bo a = .ok p := by
  simp only [mkPairedSale, if_pos h]
  split <;> exact ⟨_, rfl⟩

theorem mkPairedSale_fields (sd : DateTime) (so : Order) (bd : DateTime) (bo : Order)
    (a : Accounting) (p : PairedSale) (h : mkPairedSale sd so bd bo a = .ok p) :
    p.saleDate = sd ∧ p.saleOrder = so ∧ p.buyDate = bd ∧ p.buyOrder = bo ∧
      p.accountingMethod = a := by
  simp only [mkPairedSale] at h
  split at h
  · split at h <;> (cases h; exact ⟨rfl, rfl, rfl, rfl, rfl⟩)
  · cases h

theorem coverSale_conserve (sd : DateTime) (acct : Accounting) :
    ∀ (buys : List DOrder) (sale sale1 : Order) (buys1 : List DOrder) (ps : List PairedSale),
      coverSale sd acct sale buys = .ok (sale1, buys1, ps) →
      sumSaleFrag ps = sale.size ∧ sumSizes buys = sumSizes buys1 + sumBuyFrag ps ∧
        sale1.size = 0
  | [], sale, sale1, buys1, ps, h => by
    simp only [coverSale] at h
    split at h
    · rename_i h0
      cases h
      exact ⟨by simpa [sumSaleFrag] using h0.symm, by simp [sumSizes, sumBuyFrag], h0⟩
    · cases h
  | (cdt, cb) :: rest, sale, sale1, buys1, ps, h => by
    simp only [coverSale] at h
    split at h
    · rename_i h0
      cases h
      exact ⟨by simpa [sumSaleFrag] using h0.symm, by simp [sumBuyFrag], h0⟩
    · rename_i h0
      split at h
      · rename_i hle
        obtain ⟨p, hp⟩ := mkPairedSale_isOk sd (sale.withSize cb.size) cdt cb acct rfl
        rw [hp] at h
        obtain ⟨-, hps, -, hpb, -⟩ := mkPairedSale_fields _ _ _ _ _ _ hp
        cases hrec : coverSale sd acct (sale.withSize (sale.size - cb.size)) rest with
        | error e => rw [hrec] at h; cases h
        | ok out =>
          obtain ⟨sale2, buys2, ps2⟩ := out
          rw [hrec] at h
          cases h
          obtain ⟨ih1, ih2, ih3⟩ :=
            coverSale_conserve sd acct rest (sale.withSize (sale.size - cb.size)) sale1 buys1 ps2 hrec
          refine ⟨?_, ?_, ih3⟩
          · simp only [sumSaleFrag, List.map_cons, List.sum_cons, hps,
              Order.withSize_size] at ih1 ⊢
            linarith
          · simp only [sumSizes, sumBuyFrag, List.map_cons, List.sum_cons, hpb] at ih2 ⊢
            linarith
      · rename_i hgt
        obtain ⟨p, hp⟩ := mkPairedSale_isOk sd sale cdt (cb.withSize sale.size) acct rfl
        rw [hp] at h
        obtain ⟨-, hps, -, hpb, -⟩ := mkPairedSale_fields _ _ _ _ _ _ hp
        cases h
        refine ⟨?_, ?_, rfl⟩
        · simp [sumSaleFrag, hps]
        · simp only [sumSizes, sumBuyFrag, List.map_cons, List.sum_cons, hpb,
            Order.withSize_size, List.map_nil, List.sum_nil]
          ring

theorem coverSale_draw (sd : DateTime) (acct : Accounting) :
    ∀ (buys : List DOrder) (sale sale1 : Order) (buys1 : List DOrder) (ps : List PairedSale),
      coverSale sd acct sale buys = .ok (sale1, buys1, ps) →
      ps.map (fun p => (p.buyDate, p.buyOrder.tradeId, p.buyOrder.price)) =
        (buys.map fun x => (x.1, x.2.tradeId, x.2.price)).take ps.length
  | [], sale, sale1, buys1, ps, h => by
    simp only [coverSale] at h
    split at h
    · cases h; simp
    · cases h
  | (cdt, cb) :: rest, sale, sale1, buys1, ps, h => by
    simp only [coverSale] at h
    split at h
    · cases h; simp
    · rename_i h0
      split at h
      · rename_i hle
        obtain ⟨p, hp⟩ := mkPairedSale_isOk sd (sale.withSize cb.size) cdt cb acct rfl
        rw [hp] at h
        obtain ⟨-, -, hpd, hpb, -⟩ := mkPairedSale_fields _ _ _ _ _ _ hp
        cases hrec : coverSale sd acct (sale.withSize (sale.size - cb.size)) rest with
        | error e => rw [hrec] at h; cases h
        | ok out =>
          obtain ⟨sale2, buys2, ps2⟩ := out
          rw [hrec] at h
          cases h
          have ih := coverSale_draw sd acct rest (sale.withSize (sale.size - cb.size))
            sale1 buys1 ps2 hrec
          simp [hpd, hpb, ih]
      · rename_i hgt
        obtain ⟨p, hp⟩ := mkPairedSale_isOk sd sale cdt (cb.withSize sale.size) acct rfl
        rw [hp] at h
        obtain ⟨-, -, hpd, hpb, -⟩ := mkPairedSale_fields _ _ _ _ _ _ hp
        cases h
        simp [hpd, hpb]

theorem coverSale_pairs (sd : DateTime) (acct : Accounting) :
    ∀ (buys : List DOrder) (sale sale1 : Order) (buys1 : List DOrder) (ps : List PairedSale),
      coverSale sd acct sale buys = .ok (sale1, buys1, ps) →
      ∀ p ∈ ps, p.saleOrder.size = p.buyOrder.size ∧ p.saleDate = sd ∧
        p.accountingMethod = acct ∧ p.saleOrder.tradeId = sale.tradeId ∧
        p.saleOrder.price = sale.price
  | [], sale, sale1, buys1, ps, h => by
    simp only [coverSale] at h
    split at h
    · cases h; simp
    · cases h
  | (cdt, cb) :: rest, sale, sale1, buys1, ps, h => by
    simp only [coverSale] at h
    split at h
    · cases h; simp
    · rename_i h0
      split at h
      · rename_i hle
        obtain ⟨p, hp⟩ := mkPairedSale_isOk sd (sale.withSize cb.size) cdt cb acct rfl
        rw [hp] at h
        obtain ⟨hpsd, hps, -, hpb, hpa⟩ := mkPairedSale_fields _ _ _ _ _ _ hp
        cases hrec : coverSale sd acct (sale.withSize (sale.size - cb.size)) rest with
        | error e => rw [hrec] at h; cases h
        | ok out =>
          obtain ⟨sale2, buys2, ps2⟩ := out
          rw [hrec] at h
          cases h
          have ih := coverSale_pairs sd acct rest (sale.withSize (sale.size - cb.size))
            sale1 buys1 ps2 hrec
          intro q hq
          rcases List.mem_cons.mp hq with hq | hq
          · subst hq
            exact ⟨by simp [hps, hpb], hpsd, hpa, by simp [hps], by simp [hps]⟩
          · obtain ⟨a1, a2, a3, a4, a5⟩ := ih q hq
            exact ⟨a1, a2, a3, by simpa using a4, by simpa using a5⟩
      · rename_i hgt
        obtain ⟨p, hp⟩ := mkPairedSale_isOk sd sale cdt (cb.withSize sale.size) acct rfl
        rw [hp] at h
        obtain ⟨hpsd, hps, -, hpb, hpa⟩ := mkPairedSale_fields _ _ _ _ _ _ hp
        cases h
        intro q hq
        rcases List.mem_cons.mp hq with hq | hq
        · subst hq
          exact ⟨by simp [hps, hpb], hpsd, hpa, by simp [hps], by simp [hps]⟩
        · cases hq

theorem coverSale_pos (sd : DateTime) (acct : Accounting) :
    ∀ (buys : List DOrder) (sale sale1 : Order) (buys1 : List DOrder) (ps : List PairedSale),
      coverSale sd acct sale buys = .ok (sale1, buys1, ps) →
      0 ≤ sale.size → (∀ x ∈ buys, 0 < x.2.size) →
      (∀ p ∈ ps, 0 < p.saleOrder.size) ∧ (∀ x ∈ buys1, 0 < x.2.size)
  | [], sale, sale1, buys1, ps, h, hs, hb => by
    simp only [coverSale] at h
    split at h
    · cases h; simp
    · cases h
  | (cdt, cb) :: rest, sale, sale1, buys1, ps, h, hs, hb => by
    simp only [coverSale] at h
    split at h
    · cases h
      exact ⟨by simp, hb⟩
    · rename_i h0
      split at h
      · rename_i hle
        obtain ⟨p, hp⟩ := mkPairedSale_isOk sd (sale.withSize cb.size) cdt cb acct rfl
        rw [hp] at h
        obtain ⟨-, hps, -, hpb, -⟩ := mkPairedSale_fields _ _ _ _ _ _ hp
        cases hrec : coverSale sd acct (sale.withSize (sale.size - cb.size)) rest with
        | error e => rw [hrec] at h; cases h
        | ok out =>
          obtain ⟨sale2, buys2, ps2⟩ := out
          rw [hrec] at h
          cases h
          obtain ⟨ih1, ih2⟩ := coverSale_pos sd acct rest
            (sale.withSize (sale.size - cb.size)) sale1 buys1 ps2 hrec
            (by simp; linarith)
            (fun x hx => hb x (List.mem_cons_of_mem _ hx))
          refine ⟨?_, ih2⟩
          intro q hq
          rcases List.mem_cons.mp hq with hq | hq
          · subst hq
            simp [hps]
            exact hb (cdt, cb) (List.mem_cons_self _ _)
          · exact ih1 q hq
      · rename_i hgt
        obtain ⟨p, hp⟩ := mkPairedSale_isOk sd sale cdt (cb.withSize sale.size) acct rfl
        rw [hp] at h
        obtain ⟨-, hps, -, hpb, -⟩ := mkPairedSale_fields _ _ _ _ _ _ hp
        cases h
        have hs0 : 0 < sale.size := lt_of_le_of_ne hs (fun hh => h0 hh.symm)
        constructor
        · intro q hq
          rcases List.mem_cons.mp hq with hq | hq
          · subst hq; simpa [hps] using hs0
          · cases hq
        · intro x hx
          rcases List.mem_cons.mp hx with hx | hx
          · subst hx
            push_neg at hgt
            simp
            linarith
          · exact hb x (List.mem_cons_of_mem _ hx)

theorem coverSale_insufficient (sd : DateTime) (acct : Accounting) :
    ∀ (buys : List DOrder) (sale : Order),
      0 < sale.size → (∀ x ∈ buys, 0 ≤ x.2.size) → sumSizes buys < sale.size →
      coverSale sd acct sale buys =
        .error (.assertionError "current_buys cannot cover total_sold")
  | [], sale, hs, hb, hlt => by
    simp only [coverSale, if_neg (by linarith : ¬sale.size = 0)]
  | (cdt, cb) :: rest, sale, hs, hb, hlt => by
    have hrest : ∀ x ∈ rest, 0 ≤ x.2.size := fun x hx => hb x (List.mem_cons_of_mem _ hx)
    have hrest0 : 0 ≤ sumSizes rest := by
      have : ∀ q ∈ rest.map (fun x => x.2.size), 0 ≤ q := by
        intro q hq
        obtain ⟨x, hx, rfl⟩ := List.mem_map.mp hq
        exact hrest x hx
      exact List.sum_nonneg this
    have hsum : sumSizes ((cdt, cb) :: rest) = cb.size + sumSizes rest := by
      simp [sumSizes]
    have hcblt : cb.size < sale.size := by
      have h1 : cb.size ≤ sumSizes ((cdt, cb) :: rest) := by rw [hsum]; linarith
      linarith
    simp only [coverSale, if_neg (by linarith : ¬sale.size = 0), if_pos (le_of_lt hcblt)]
    obtain ⟨p, hp⟩ := mkPairedSale_isOk sd (sale.withSize cb.size) cdt cb acct rfl
    rw [hp]
    rw [coverSale_insufficient sd acct rest (sale.withSize (sale.size - cb.size))
      (by simp; linarith) hrest (by simp; linarith)]

theorem sumSizes_append (l1 l2 : List DOrder) :
    sumSizes (l1 ++ l2) = sumSizes l1 + sumSizes l2 := by
  simp [sumSizes]

theorem sumSizes_perm {l1 l2 : List DOrder} (h : l1.Perm l2) :
    sumSizes l1 = sumSizes l2 := by
  simpa [sumSizes] using (h.map fun x => x.2.size).sum_eq

theorem sumBuyFrag_append (l1 l2 : List PairedSale) :
    sumBuyFrag (l1 ++ l2) = sumBuyFrag l1 + sumBuyFrag l2 := by
  simp [sumBuyFrag]

theorem sumSaleFrag_append (l1 l2 : List PairedSale) :
    sumSaleFrag (l1 ++ l2) = sumSaleFrag l1 + sumSaleFrag l2 := by
  simp [sumSaleFrag]

theorem processOrder_append (pm : List (Int × Accounting)) (st : MatcherState)
    (x : DOrder) (st1 : MatcherState) (h : processOrder pm st x = .ok st1) :
    ∃ t, st1.pairedSales = st.pairedSales ++ t := by
  simp only [processOrder] at h
  split at h
  · split at h
    · cases h; exact ⟨[], by simp⟩
    · split at h
      · cases h
      · split at h
        · cases h
        · cases h; exact ⟨_, rfl⟩
  · cases h

theorem processOrder_conserve (pm : List (Int × Accounting)) (st : MatcherState)
    (x : DOrder) (st1 : MatcherState) (h : processOrder pm st x = .ok st1) :
    sumSizes st1.currentBuys + sumBuyFrag st1.pairedSales =
      sumSizes st.currentBuys + sumBuyFrag st.pairedSales +
        (if x.2.side = "BUY" then x.2.size else 0) := by
  simp only [processOrder] at h
  split at h
  · split at h
    · rename_i hb
      cases h
      simp [sumSizes_append, sumSizes, if_pos hb]
      ring
    · rename_i hb
      split at h
      · cases h
      · rename_i acct hlk
        split at h
        · cases h
        · rename_i out sale1 buys1 ps hcv
          cases h
          have hperm : (if acct = Accounting.HIFO then List.insertionSort hifoRel st.currentBuys
              else List.insertionSort chronoRel st.currentBuys).Perm st.currentBuys := by
            split <;> exact List.perm_insertionSort _ _
          obtain ⟨-, hc2, -⟩ := coverSale_conserve _ _ _ _ _ _ _ hcv
          rw [sumSizes_perm hperm] at hc2
          simp only [sumBuyFrag_append, if_neg hb]
          linarith
  · cases h

theorem processOrders_append (pm : List (Int × Accounting)) :
    ∀ (os : List DOrder) (st st' : MatcherState),
      processOrders pm st os = .ok st' →
      ∃ t, st'.pairedSales = st.pairedSales ++ t
  | [], st, st', h => by
    cases h; exact ⟨[], by simp⟩
  | x :: rest, st, st', h => by
    simp only [processOrders] at h
    split at h
    · cases h
    · rename_i st1 hstep
      obtain ⟨t1, ht1⟩ := processOrder_append pm st x st1 hstep
      obtain ⟨t2, ht2⟩ := processOrders_append pm rest st1 st' h
      exact ⟨t1 ++ t2, by rw [ht2, ht1, List.append_assoc]⟩

theorem processOrders_conserve (pm : List (Int × Accounting)) :
    ∀ (os : List DOrder) (st st' : MatcherState),
      processOrders pm st os = .ok st' →
      sumSizes st'.currentBuys + sumBuyFrag st'.pairedSales =
        sumSizes st.currentBuys + sumBuyFrag st.pairedSales +
          sumSizes (os.filter fun x => decide (x.2.side = "BUY"))
  | [], st, st', h => by
    cases h; simp [sumSizes]
  | x :: rest, st, st', h => by
    simp only [processOrders] at h
    split at h
    · cases h
    · rename_i st1 hstep
      have ih := processOrders_conserve pm rest st1 st' h
      have hc := processOrder_conserve pm st x st1 hstep
      by_cases hb : x.2.side = "BUY"
      · rw [List.filter_cons_of_pos (by simpa using hb)] at *
        rw [if_pos hb] at hc
        simp only [sumSizes, List.map_cons, List.sum_cons] at *
        linarith
      · rw [List.filter_cons_of_neg (by simpa using hb)] at *
        rw [if_neg hb] at hc
        linarith

theorem processOrder_sizeEq (pm : List (Int × Accounting)) (st : MatcherState)
    (x : DOrder) (st1 : MatcherState) (h : processOrder pm st x = .ok st1)
    (h0 : ∀ p ∈ st.pairedSales, p.saleOrder.size = p.buyOrder.size) :
    ∀ p ∈ st1.pairedSales, p.saleOrder.size = p.buyOrder.size := by
  simp only [processOrder] at h
  split at h
  · split at h
    · cases h; exact h0
    · split at h
      · cases h
      · rename_i acct hlk
        split at h
        · cases h
        · rename_i out sale1 buys1 ps hcv
          cases h
          intro p hp
          rcases List.mem_append.mp hp with hp | hp
          · exact h0 p hp
          · exact (coverSale_pairs _ _ _ _ _ _ _ hcv p hp).1
  · cases h

theorem processOrders_sizeEq (pm : List (Int × Accounting)) :
    ∀ (os : List DOrder) (st st' : MatcherState),
      processOrders pm st os = .ok st' →
      (∀ p ∈ st.pairedSales, p.saleOrder.size = p.buyOrder.size) →
      ∀ p ∈ st'.pairedSales, p.saleOrder.size = p.buyOrder.size
  | [], st, st', h, h0 => by cases h; exact h0
  | x :: rest, st, st', h, h0 => by
    simp only [processOrders] at h
    split at h
    · cases h
    · rename_i st1 hstep
      exact processOrders_sizeEq pm rest st1 st' h
        (processOrder_sizeEq pm st x st1 hstep h0)

theorem pairSalesWithBuys_inv (orders : List DOrder) (pm : List (Int × Accounting))
    (maxYear : Int) (res : List DOrder × List PairedSale)
    (h : pairSalesWithBuys orders pm maxYear = .ok res) :
    ∃ st, processOrders pm ⟨[], []⟩ (ordersToProcess orders maxYear) = .ok st ∧
      res.1 = List.insertionSort chronoRel st.currentBuys ++ ordersToIgnore orders maxYear ∧
      res.2 = st.pairedSales := by
  simp only [pairSalesWithBuys] at h
  split at h
  · cases h
  · rename_i st hok
    split at h
    · cases h
      exact ⟨st, hok, rfl, rfl⟩
    · cases h

theorem pairSalesWithBuys_error (orders : List DOrder) (pm : List (Int × Accounting))
    (maxYear : Int) (e : PyError)
    (h : processOrders pm ⟨[], []⟩ (ordersToProcess orders maxYear) = .error e) :
    pairSalesWithBuys orders pm maxYear = .error e := by
  simp only [pairSalesWithBuys, h]

theorem processOrders_error_of_mem (pm : List (Int × Accounting)) :
    ∀ (os : List DOrder) (x : DOrder), x ∈ os →
      (∀ st, ∃ e, processOrder pm st x = .error e) →
      ∀ st, ∃ e, processOrders pm st os = .error e
  | [], x, hm, hx, st => absurd hm (List.not_mem_nil x)
  | y :: rest, x, hm, hx, st => by
    simp only [processOrders]
    cases hstep : processOrder pm st y with
    | error e => exact ⟨e, rfl⟩
    | ok st1 =>
      rcases List.mem_cons.mp hm with hm | hm
      · subst hm
        obtain ⟨e, he⟩ := hx st
        rw [hstep] at he
        cases he
      · obtain ⟨e, he⟩ := processOrders_error_of_mem pm rest x hm hx st1
        exact ⟨e, he⟩

theorem mem_ordersToProcess (orders : List DOrder) (maxYear : Int) (x : DOrder)
    (hm : x ∈ orders) (hy : x.1.year ≤ maxYear) :
    x ∈ ordersToProcess orders maxYear := by
  simp only [ordersToProcess, sortedOrders, List.mem_filter, List.mem_insertionSort]
  exact ⟨hm, by simpa using hy⟩

theorem processOrder_badSide (pm : List (Int × Accounting)) (st : MatcherState)
    (x : DOrder) (h1 : x.2.side ≠ "BUY") (h2 : x.2.side ≠ "SELL") :
    processOrder pm st x = .error (.assertionError "") := by
  simp only [processOrder]
  rw [if_neg (by simp [h1, h2])]

theorem processOrder_missingYear (pm : List (Int × Accounting)) (st : MatcherState)
    (x : DOrder) (h1 : x.2.side = "SELL") (h2 : List.lookup x.1.year pm = none) :
    processOrder pm st x = .error (.keyError x.1.year) := by
  simp only [processOrder, h1, h2]
  simp

/-- C1: conservation of quantity.  Whenever `pair_sales_with_buys` returns
normally, the sum of the BUY quantities among in-window orders
(`timestamp.year <= maxYear`) equals the sum of the quantities of the
returned remaining lots plus the sum of the buy-fragment quantities of all
emitted matched pairs — exactly, under the exact rational arithmetic of this
model, hence within any positive tolerance. -/
theorem conservation_of_quantity (orders : List DOrder) (pm : List (Int × Accounting))
    (maxYear : Int) (res : List DOrder × List PairedSale)
    (h : pairSalesWithBuys orders pm maxYear = .ok res) :
    ∃ rem, res.1 = rem ++ ordersToIgnore orders maxYear ∧
      sumSizes (orders.filter fun x => decide (x.2.side = "BUY") && decide (x.1.year ≤ maxYear))
        = sumSizes rem + sumBuyFrag res.2 := by
  obtain ⟨st, hok, h1, h2⟩ := pairSalesWithBuys_inv orders pm maxYear res h
  refine ⟨List.insertionSort chronoRel st.currentBuys, h1, ?_⟩
  have hcons := processOrders_conserve pm (ordersToProcess orders maxYear) ⟨[], []⟩ st hok
  simp only [sumSizes, sumBuyFrag, List.map_nil, List.sum_nil, zero_add] at hcons
  have hflt : ((ordersToProcess orders maxYear).filter fun x => decide (x.2.side = "BUY")) =
      (sortedOrders orders).filter
        (fun x => decide (x.2.side = "BUY") && decide (x.1.year ≤ maxYear)) := by
    simp only [ordersToProcess, List.filter_filter]
  have hperm : ((sortedOrders orders).filter
      (fun x => decide (x.2.side = "BUY") && decide (x.1.year ≤ maxYear))).Perm
      (orders.filter (fun x => decide (x.2.side = "BUY") && decide (x.1.year ≤ maxYear))) :=
    (List.perm_insertionSort chronoRel orders).filter _
  have hsortperm : (List.insertionSort chronoRel st.currentBuys).Perm st.currentBuys :=
    List.perm_insertionSort _ _
  rw [← sumSizes_perm hperm, ← hflt, h2, sumSizes_perm hsortperm]
  simpa [sumSizes, sumBuyFrag] using hcons.symm

/-- C9: output ordering.  On a successful run the first component is the
remaining open lots re-sorted ascending by `(timestamp, trade id)` — whatever
policy was last used — followed by the ignored orders (`year > maxYear`), and
the second component is the matched pairs exactly as accumulated in emission
order. -/
theorem output_ordering (orders : List DOrder) (pm : List (Int × Accounting))
    (maxYear : Int) (res : List DOrder × List PairedSale)
    (h : pairSalesWithBuys orders pm maxYear = .ok res) :
    ∃ st, processOrders pm ⟨[], []⟩ (ordersToProcess orders maxYear) = .ok st ∧
      res.1 = List.insertionSort chronoRel st.currentBuys ++ ordersToIgnore orders maxYear ∧
      (List.insertionSort chronoRel st.currentBuys).Sorted chronoRel ∧
      (List.insertionSort chronoRel st.currentBuys).Perm st.currentBuys ∧
      (∀ x ∈ ordersToIgnore orders maxYear, maxYear < x.1.year) ∧
      res.2 = st.pairedSales := by
  obtain ⟨st, hok, h1, h2⟩ := pairSalesWithBuys_inv orders pm maxYear res h
  refine ⟨st, hok, h1, List.sorted_insertionSort chronoRel st.currentBuys,
    List.perm_insertionSort chronoRel st.currentBuys, ?_, h2⟩
  intro x hx
  have := List.of_mem_filter hx
  simpa using this

/-- C8: matched-pair independence.  A pair, once emitted, is a value that no
later step of the run modifies: after processing any further orders, the
previously accumulated pairs are an unchanged initial segment of the final
pair list, every field intact.  (The deep copies taken by
`PairedSale.__init__` are what make this hold for the Python dictionaries;
in this model fragments are immutable values by construction.) -/
theorem matched_pair_independence (pm : List (Int × Accounting)) (os : List DOrder)
    (st st' : MatcherState) (h : processOrders pm st os = .ok st') :
    (∃ newPairs, st'.pairedSales = st.pairedSales ++ newPairs) ∧
      st'.pairedSales.take st.pairedSales.length = st.pairedSales := by
  obtain ⟨t, ht⟩ := processOrders_append pm os st st' h
  exact ⟨⟨t, ht⟩, by rw [ht]; simp⟩

/-- Reduction of the SELL branch of `processOrder` once the policy lookup is
known. -/
theorem processOrder_sell_eq (pm : List (Int × Accounting)) (st : MatcherState)
    (dt : DateTime) (o : Order) (acct : Accounting) (hside : o.side = "SELL")
    (hlk : List.lookup dt.year pm = some acct) :
    processOrder pm st (dt, o) =
      match coverSale dt acct o
          (if acct = Accounting.HIFO then List.insertionSort hifoRel st.currentBuys
           else List.insertionSort chronoRel st.currentBuys) with
      | .error e => .error e
      | .ok out => .ok ⟨out.2.1, st.pairedSales ++ out.2.2⟩ := by
  simp only [processOrder]
  rw [if_pos (Or.inr hside), if_neg (by rw [hside]; decide), hlk]
  dsimp only []
  cases coverSale dt acct o
      (if acct = Accounting.HIFO then List.insertionSort hifoRel st.currentBuys
       else List.insertionSort chronoRel st.currentBuys) <;> rfl

/-- C2: full coverage.  When an in-window SELL order is processed without
error, the pairs emitted for it cover exactly its original quantity, and —
given positive input quantities — every fragment is strictly positive, the
buy fragment always equal in size to its sale fragment. -/
theorem full_coverage (pm : List (Int × Accounting)) (st : MatcherState)
    (dt : DateTime) (o : Order) (st1 : MatcherState) (hside : o.side = "SELL")
    (h : processOrder pm st (dt, o) = .ok st1) (hpos : 0 < o.size)
    (hlots : ∀ x ∈ st.currentBuys, 0 < x.2.size) :
    ∃ ps, st1.pairedSales = st.pairedSales ++ ps ∧ sumSaleFrag ps = o.size ∧
      ∀ p ∈ ps, 0 < p.saleOrder.size ∧ p.buyOrder.size = p.saleOrder.size := by
  cases hlk : List.lookup dt.year pm with
  | none =>
    rw [processOrder_missingYear pm st (dt, o) hside hlk] at h
    cases h
  | some acct =>
    rw [processOrder_sell_eq pm st dt o acct hside hlk] at h
    cases hcv : coverSale dt acct o
        (if acct = Accounting.HIFO then List.insertionSort hifoRel st.currentBuys
         else List.insertionSort chronoRel st.currentBuys) with
    | error e => rw [hcv] at h; cases h
    | ok out =>
      obtain ⟨sale1, buys1, ps⟩ := out
      rw [hcv] at h
      cases h
      refine ⟨ps, rfl, (coverSale_conserve _ _ _ _ _ _ _ hcv).1, ?_⟩
      have hsortpos : ∀ x ∈ (if acct = Accounting.HIFO
          then List.insertionSort hifoRel st.currentBuys
          else List.insertionSort chronoRel st.currentBuys), 0 < x.2.size := by
        intro x hx
        apply hlots
        split at hx <;> exact (List.mem_insertionSort _).mp hx
      obtain ⟨hfrag, -⟩ := coverSale_pos _ _ _ _ _ _ _ hcv hpos.le hsortpos
      intro p hp
      exact ⟨hfrag p hp, ((coverSale_pairs _ _ _ _ _ _ _ hcv p hp).1).symm⟩

/-- C3: HIFO draw order.  When the policy for the sale year is HIFO, the
engine reorders the open lots into a stable descending-by-price permutation
of their prior order (equal-price lots keep their prior relative order — no
timestamp tie-break) and consumes lots from the front of that order, so the
buy fragments it emits are drawn in descending price order. -/
theorem hifo_draw_order (pm : List (Int × Accounting)) (st : MatcherState)
    (dt : DateTime) (o : Order) (st1 : MatcherState) (hside : o.side = "SELL")
    (hlk : List.lookup dt.year pm = some Accounting.HIFO)
    (h : processOrder pm st (dt, o) = .ok st1) :
    ∃ ps, st1.pairedSales = st.pairedSales ++ ps ∧
      (List.insertionSort hifoRel st.currentBuys).Sorted hifoRel ∧
      (List.insertionSort hifoRel st.currentBuys).Perm st.currentBuys ∧
      (∀ q : Rat, (st.currentBuys.filter fun x => decide (x.2.price = q)).Sublist
          (List.insertionSort hifoRel st.currentBuys)) ∧
      ps.map (fun p => (p.buyDate, p.buyOrder.tradeId, p.buyOrder.price)) =
        ((List.insertionSort hifoRel st.currentBuys).map fun x =>
          (x.1, x.2.tradeId, x.2.price)).take ps.length ∧
      (ps.map fun p => p.buyOrder.price).Sorted fun a b => b ≤ a := by
  rw [processOrder_sell_eq pm st dt o Accounting.HIFO hside hlk] at h
  rw [if_pos rfl] at h
  cases hcv : coverSale dt Accounting.HIFO o (List.insertionSort hifoRel st.currentBuys) with
  | error e => rw [hcv] at h; cases h
  | ok out =>
    obtain ⟨sale1, buys1, ps⟩ := out
    rw [hcv] at h
    cases h
    have hdraw := coverSale_draw _ _ _ _ _ _ _ hcv
    refine ⟨ps, rfl, List.sorted_insertionSort hifoRel st.currentBuys,
      List.perm_insertionSort hifoRel st.currentBuys, ?_, hdraw, ?_⟩
    · intro q
      apply List.sublist_insertionSort
      · apply List.pairwise_of_forall_mem_list
        intro a ha b hb
        have ha2 : a.2.price = q := by simpa using List.of_mem_filter ha
        have hb2 : b.2.price = q := by simpa using List.of_mem_filter hb
        unfold hifoRel
        rw [ha2, hb2]
      · exact List.filter_sublist _
    · have hprice : ps.map (fun p => p.buyOrder.price) =
          ((List.insertionSort hifoRel st.currentBuys).map fun x => x.2.price).take ps.length := by
        have := congrArg (List.map fun t : DateTime × String × Rat => t.2.2) hdraw
        simpa [List.map_map, ← List.map_take, Function.comp] using this
      rw [hprice]
      apply List.Pairwise.sublist (List.take_sublist _ _)
      apply List.Pairwise.map (fun x : DOrder => x.2.price)
        (fun a b hab => hab)
      exact List.sorted_insertionSort hifoRel st.currentBuys

/-- C4: FIFO draw order.  When the policy for the sale year is FIFO, the
engine reorders the open lots ascending by `(timestamp, trade id)` and
consumes lots from the front of that order, so the buy fragments it emits
are drawn in ascending `(timestamp, trade id)` order. -/
theorem fifo_draw_order (pm : List (Int × Accounting)) (st : MatcherState)
    (dt : DateTime) (o : Order) (st1 : MatcherState) (hside : o.side = "SELL")
    (hlk : List.lookup dt.year pm = some Accounting.FIFO)
    (h : processOrder pm st (dt, o) = .ok st1) :
    ∃ ps, st1.pairedSales = st.pairedSales ++ ps ∧
      (List.insertionSort chronoRel st.currentBuys).Sorted chronoRel ∧
      (List.insertionSort chronoRel st.currentBuys).Perm st.currentBuys ∧
      ps.map (fun p => (p.buyDate, p.buyOrder.tradeId, p.buyOrder.price)) =
        ((List.insertionSort chronoRel st.currentBuys).map fun x =>
          (x.1, x.2.tradeId, x.2.price)).take ps.length ∧
      (ps.map fun p => (p.buyDate.sec, p.buyOrder.tradeId)).Sorted fifoKeyRel := by
  rw [processOrder_sell_eq pm st dt o Accounting.FIFO hside hlk] at h
  rw [if_neg (by decide)] at h
  cases hcv : coverSale dt Accounting.FIFO o (List.insertionSort chronoRel st.currentBuys) with
  | error e => rw [hcv] at h; cases h
  | ok out =>
    obtain ⟨sale1, buys1, ps⟩ := out
    rw [hcv] at h
    cases h
    have hdraw := coverSale_draw _ _ _ _ _ _ _ hcv
    refine ⟨ps, rfl, List.sorted_insertionSort chronoRel st.currentBuys,
      List.perm_insertionSort chronoRel st.currentBuys, hdraw, ?_⟩
    have hkeys : ps.map (fun p => (p.buyDate.sec, p.buyOrder.tradeId)) =
        ((List.insertionSort chronoRel st.currentBuys).map fun x =>
          (x.1.sec, x.2.tradeId)).take ps.length := by
      have := congrArg
        (List.map fun t : DateTime × String × Rat => (t.1.sec, t.2.1)) hdraw
      simpa [List.map_map, ← List.map_take, Function.comp] using this
    rw [hkeys]
    apply List.Pairwise.sublist (List.take_sublist _ _)
    apply List.Pairwise.map (fun x : DOrder => (x.1.sec, x.2.tradeId))
      (fun a b hab => hab)
    exact List.sorted_insertionSort chronoRel st.currentBuys

/-- C5: holding-period classification.  A pair is long-term exactly when the
whole-day difference of sale and buy timestamps is strictly greater than 365;
at exactly 365 days the whole gain is short-term, at 366 days it is
long-term. -/
theorem holding_period_classification (sd : DateTime) (so : Order) (bd : DateTime)
    (bo : Order) (a : Accounting) (p : PairedSale)
    (h : mkPairedSale sd so bd bo a = .ok p) :
    ((365 < timedeltaDays sd bd) →
        p.longTermGains = so.size * so.price - bo.size * bo.price ∧ p.shortTermGains = 0) ∧
    ((timedeltaDays sd bd ≤ 365) →
        p.shortTermGains = so.size * so.price - bo.size * bo.price ∧ p.longTermGains = 0) ∧
    (sd.sec - bd.sec = 365 * 86400 →
        p.shortTermGains = so.size * so.price - bo.size * bo.price ∧ p.longTermGains = 0) ∧
    (sd.sec - bd.sec = 366 * 86400 →
        p.longTermGains = so.size * so.price - bo.size * bo.price ∧ p.shortTermGains = 0) := by
  simp only [mkPairedSale] at h
  split at h
  · split at h
    · rename_i hlong
      cases h
      refine ⟨fun _ => ⟨rfl, rfl⟩, fun hle => absurd hlong (not_lt.mpr hle), ?_, fun _ => ⟨rfl, rfl⟩⟩
      intro h365
      exfalso
      have : timedeltaDays sd bd = 365 := by
        unfold timedeltaDays
        rw [h365]
        decide
      omega
    · rename_i hshort
      push_neg at hshort
      cases h
      refine ⟨fun hl => absurd hl (not_lt.mpr hshort), fun _ => ⟨rfl, rfl⟩,
        fun _ => ⟨rfl, rfl⟩, ?_⟩
      intro h366
      exfalso
      have : timedeltaDays sd bd = 366 := by
        unfold timedeltaDays
        rw [h366]
        decide
      omega
  · cases h

/-- Splitting a successful run of the processing loop at a list split point. -/
theorem processOrders_append_chain (pm : List (Int × Accounting)) :
    ∀ (l1 : List DOrder) (l2 : List DOrder) (st st1 : MatcherState),
      processOrders pm st l1 = .ok st1 →
      processOrders pm st (l1 ++ l2) = processOrders pm st1 l2
  | [], l2, st, st1, h => by cases h; rfl
  | x :: rest, l2, st, st1, h => by
    simp only [processOrders] at h ⊢
    split at h
    · cases h
    · rename_i st2 hstep
      exact processOrders_append_chain pm rest l2 st2 st1 h

/-- Failure of the whole run when processing reaches an in-window SELL whose
quantity strictly exceeds the total quantity of the open lots at that
point. -/
theorem abortsOfInsufficientLots (orders : List DOrder) (pm : List (Int × Accounting))
    (maxYear : Int) (pre post : List DOrder) (st : MatcherState) (dt : DateTime)
    (o : Order) (acct : Accounting)
    (hsplit : ordersToProcess orders maxYear = pre ++ (dt, o) :: post)
    (hpre : processOrders pm ⟨[], []⟩ pre = .ok st)
    (hside : o.side = "SELL") (hlk : List.lookup dt.year pm = some acct)
    (hpos : 0 < o.size) (hnn : ∀ x ∈ st.currentBuys, 0 ≤ x.2.size)
    (hlt : sumSizes st.currentBuys < o.size) :
    pairSalesWithBuys orders pm maxYear =
      .error (.assertionError "current_buys cannot cover total_sold") := by
  apply pairSalesWithBuys_error
  rw [hsplit, processOrders_append_chain pm pre ((dt, o) :: post) ⟨[], []⟩ st hpre]
  simp only [processOrders]
  rw [processOrder_sell_eq pm st dt o acct hside hlk]
  have hsorted :
      (if acct = Accounting.HIFO then List.insertionSort hifoRel st.currentBuys
       else List.insertionSort chronoRel st.currentBuys).Perm st.currentBuys := by
    split <;> exact List.perm_insertionSort _ _
  rw [coverSale_insufficient dt acct _ o hpos
    (fun x hx => hnn x (hsorted.mem_iff.mp hx))
    (by rw [sumSizes_perm hsorted]; exact hlt)]

/-- C6 (amended): insufficient lots abort the run.  If processing reaches an
in-window SELL whose quantity strictly exceeds the total quantity of the open
lots at that point, the whole run fails with the assertion error of the
covering loop — a constant message that does not name the offending sale —
and no output at all is produced. -/
theorem insufficient_lots_aborts (orders : List DOrder) (pm : List (Int × Accounting))
    (maxYear : Int) (pre post : List DOrder) (st : MatcherState) (dt : DateTime)
    (o : Order) (acct : Accounting)
    (hsplit : ordersToProcess orders maxYear = pre ++ (dt, o) :: post)
    (hpre : processOrders pm ⟨[], []⟩ pre = .ok st)
    (hside : o.side = "SELL") (hlk : List.lookup dt.year pm = some acct)
    (hpos : 0 < o.size) (hnn : ∀ x ∈ st.currentBuys, 0 ≤ x.2.size)
    (hlt : sumSizes st.currentBuys < o.size) :
    pairSalesWithBuys orders pm maxYear =
      .error (.assertionError "current_buys cannot cover total_sold") :=
  abortsOfInsufficientLots orders pm maxYear pre post st dt o acct hsplit hpre
    hside hlk hpos hnn hlt

/-- C6 (counterexample to the claim as stated): the insufficiency error does
not identify the offending sale.  Two one-order inputs that differ only in
the id of the uncoverable SELL produce the very same error value, so no sale
identifier is surfaced. -/
theorem insufficient_lots_anonymous :
    pairSalesWithBuys [(⟨2020, 0⟩, ⟨"A", "SELL", 1, 5⟩)] [(2020, Accounting.FIFO)] 2020 =
      pairSalesWithBuys [(⟨2020, 0⟩, ⟨"B", "SELL", 1, 5⟩)] [(2020, Accounting.FIFO)] 2020 ∧
    (∃ e, pairSalesWithBuys [(⟨2020, 0⟩, ⟨"A", "SELL", 1, 5⟩)] [(2020, Accounting.FIFO)] 2020 =
      .error e) ∧
    ("A" : String) ≠ "B" := by
  have hA : pairSalesWithBuys [(⟨2020, 0⟩, ⟨"A", "SELL", 1, 5⟩)] [(2020, Accounting.FIFO)] 2020 =
      .error (.assertionError "current_buys cannot cover total_sold") := by
    refine abortsOfInsufficientLots _ _ _ [] [] ⟨[], []⟩ ⟨2020, 0⟩ ⟨"A", "SELL", 1, 5⟩
        Accounting.FIFO ?_ rfl rfl ?_ ?_ ?_ ?_
    · norm_num [ordersToProcess, sortedOrders, List.insertionSort, List.orderedInsert,
        List.filter]
    · decide
    · norm_num
    · simp
    · norm_num [sumSizes]
  have hB : pairSalesWithBuys [(⟨2020, 0⟩, ⟨"B", "SELL", 1, 5⟩)] [(2020, Accounting.FIFO)] 2020 =
      .error (.assertionError "current_buys cannot cover total_sold") := by
    refine abortsOfInsufficientLots _ _ _ [] [] ⟨[], []⟩ ⟨2020, 0⟩ ⟨"B", "SELL", 1, 5⟩
        Accounting.FIFO ?_ rfl rfl ?_ ?_ ?_ ?_
    · norm_num [ordersToProcess, sortedOrders, List.insertionSort, List.orderedInsert,
        List.filter]
    · decide
    · norm_num
    · simp
    · norm_num [sumSizes]
  exact ⟨by rw [hA, hB], ⟨_, hA⟩, by decide⟩

/-- C7 (counterexample to the claim as stated): an order with non-positive
quantity is not rejected.  A run whose only order is a BUY of quantity zero
returns normally, with the malformed lot in the output. -/
theorem nonpositive_quantity_accepted :
    pairSalesWithBuys [(⟨2020, 0⟩, ⟨"1", "BUY", 0, 5⟩)] [] 2020 =
      .ok ([(⟨2020, 0⟩, ⟨"1", "BUY", 0, 5⟩)], []) ∧
    ¬ 0 < (⟨"1", "BUY", 0, 5⟩ : Order).size := by
  constructor
  · norm_num [pairSalesWithBuys, processOrders, processOrder, ordersToProcess,
      ordersToIgnore, sortedOrders, originalTotalBuySize, sumSizes, sumSaleFrag,
      List.insertionSort, List.orderedInsert, List.filter]
  · norm_num

/-- C7 (amended): an in-window order whose side is neither BUY nor SELL makes
the run fail (when that order is reached during the pass), with no output
produced. -/
theorem invalid_side_aborts (orders : List DOrder) (pm : List (Int × Accounting))
    (maxYear : Int) (dt : DateTime) (o : Order)
    (hm : (dt, o) ∈ orders) (hy : dt.year ≤ maxYear)
    (h1 : o.side ≠ "BUY") (h2 : o.side ≠ "SELL") :
    ∃ e, pairSalesWithBuys orders pm maxYear = .error e := by
  have hx : ∀ st, ∃ e, processOrder pm st (dt, o) = .error e :=
    fun st => ⟨_, processOrder_badSide pm st (dt, o) h1 h2⟩
  obtain ⟨e, he⟩ := processOrders_error_of_mem pm (ordersToProcess orders maxYear) (dt, o)
    (mem_ordersToProcess orders maxYear (dt, o) hm hy) hx ⟨[], []⟩
  exact ⟨e, pairSalesWithBuys_error orders pm maxYear e he⟩

/-- C10: the year-to-policy map must cover every in-window sale year.  An
in-window SELL whose calendar year is missing from the map makes the step
that would process it fail with exactly the lookup error `KeyError year`,
before any lot is drawn for it, and the whole run then fails, producing no
output. -/
theorem policy_map_totality (orders : List DOrder) (pm : List (Int × Accounting))
    (maxYear : Int) (dt : DateTime) (o : Order) (st : MatcherState)
    (hm : (dt, o) ∈ orders) (hside : o.side = "SELL") (hy : dt.year ≤ maxYear)
    (hlk : List.lookup dt.year pm = none) :
    processOrder pm st (dt, o) = .error (.keyError dt.year) ∧
    ∃ e, pairSalesWithBuys orders pm maxYear = .error e := by
  refine ⟨processOrder_missingYear pm st (dt, o) hside hlk, ?_⟩
  have hx : ∀ st', ∃ e, processOrder pm st' (dt, o) = .error e :=
    fun st' => ⟨_, processOrder_missingYear pm st' (dt, o) hside hlk⟩
  obtain ⟨e, he⟩ := processOrders_error_of_mem pm (ordersToProcess orders maxYear) (dt, o)
    (mem_ordersToProcess orders maxYear (dt, o) hm hy) hx ⟨[], []⟩
  exact ⟨e, pairSalesWithBuys_error orders pm maxYear e he⟩

/-- Concrete instantiation of conservation: one in-window BUY of quantity 1,
no sales; the run succeeds returning the lot and quantity balances. -/
theorem conservation_of_quantity_witness :
    ∃ rem, ([(⟨2020, 0⟩, ⟨"1", "BUY", 1, 100⟩)] : List DOrder) =
        rem ++ ordersToIgnore [(⟨2020, 0⟩, ⟨"1", "BUY", 1, 100⟩)] 2020 ∧
      sumSizes ([(⟨2020, 0⟩, ⟨"1", "BUY", 1, 100⟩)].filter
          fun x => decide (x.2.side = "BUY") && decide (x.1.year ≤ 2020)) =
        sumSizes rem + sumBuyFrag [] :=
  conservation_of_quantity [(⟨2020, 0⟩, ⟨"1", "BUY", 1, 100⟩)] [] 2020
    ([(⟨2020, 0⟩, ⟨"1", "BUY", 1, 100⟩)], [])
    (by norm_num [pairSalesWithBuys, processOrders, processOrder, ordersToProcess,
      ordersToIgnore, sortedOrders, originalTotalBuySize, sumSizes, sumSaleFrag,
      List.insertionSort, List.orderedInsert, List.filter])

/-- Concrete instantiation of full coverage: one open lot of quantity 1 fully
consumed by a SELL of quantity 1 under FIFO. -/
theorem full_coverage_witness :
    ∃ ps, ([⟨⟨2020, 86400⟩, ⟨"2", "SELL", 1, 100⟩, ⟨2019, 0⟩, ⟨"1", "BUY", 1, 100⟩,
        Accounting.FIFO, 100, 100, 0, 0⟩] : List PairedSale) = [] ++ ps ∧
      sumSaleFrag ps = (⟨"2", "SELL", 1, 100⟩ : Order).size ∧
      ∀ p ∈ ps, 0 < p.saleOrder.size ∧ p.buyOrder.size = p.saleOrder.size :=
  full_coverage [(2020, Accounting.FIFO)] ⟨[(⟨2019, 0⟩, ⟨"1", "BUY", 1, 100⟩)], []⟩
    ⟨2020, 86400⟩ ⟨"2", "SELL", 1, 100⟩
    ⟨[], [⟨⟨2020, 86400⟩, ⟨"2", "SELL", 1, 100⟩, ⟨2019, 0⟩, ⟨"1", "BUY", 1, 100⟩,
        Accounting.FIFO, 100, 100, 0, 0⟩]⟩
    rfl
    (by
      norm_num [processOrder, List.insertionSort, List.orderedInsert, List.lookup,
        coverSale, mkPairedSale, timedeltaDays, Order.withSize]
      decide)
    (by norm_num)
    (by intro x hx; rw [List.mem_singleton] at hx; subst hx; norm_num)

/-- Concrete instantiation of the HIFO draw order: a single open lot consumed
by a SELL in a HIFO year. -/
theorem hifo_draw_order_witness :
    ∃ ps, ([⟨⟨2020, 86400⟩, ⟨"2", "SELL", 1, 100⟩, ⟨2019, 0⟩, ⟨"1", "BUY", 1, 100⟩,
        Accounting.HIFO, 100, 100, 0, 0⟩] : List PairedSale) = [] ++ ps ∧
      (List.insertionSort hifoRel [(⟨2019, 0⟩, ⟨"1", "BUY", 1, 100⟩)]).Sorted hifoRel ∧
      (List.insertionSort hifoRel [(⟨2019, 0⟩, ⟨"1", "BUY", 1, 100⟩)]).Perm
        [(⟨2019, 0⟩, ⟨"1", "BUY", 1, 100⟩)] ∧
      (∀ q : Rat, (([(⟨2019, 0⟩, ⟨"1", "BUY", 1, 100⟩)] : List DOrder).filter
          fun x => decide (x.2.price = q)).Sublist
          (List.insertionSort hifoRel [(⟨2019, 0⟩, ⟨"1", "BUY", 1, 100⟩)])) ∧
      ps.map (fun p => (p.buyDate, p.buyOrder.tradeId, p.buyOrder.price)) =
        ((List.insertionSort hifoRel [(⟨2019, 0⟩, ⟨"1", "BUY", 1, 100⟩)]).map fun x =>
          (x.1, x.2.tradeId, x.2.price)).take ps.length ∧
      (ps.map fun p => p.buyOrder.price).Sorted fun a b => b ≤ a :=
  hifo_draw_order [(2020, Accounting.HIFO)] ⟨[(⟨2019, 0⟩, ⟨"1", "BUY", 1, 100⟩)], []⟩
    ⟨2020, 86400⟩ ⟨"2", "SELL", 1, 100⟩
    ⟨[], [⟨⟨2020, 86400⟩, ⟨"2", "SELL", 1, 100⟩, ⟨2019, 0⟩, ⟨"1", "BUY", 1, 100⟩,
        Accounting.HIFO, 100, 100, 0, 0⟩]⟩
    rfl rfl
    (by
      norm_num [processOrder, List.insertionSort, List.orderedInsert, List.lookup,
        coverSale, mkPairedSale, timedeltaDays, Order.withSize]
      decide)

/-- Concrete instantiation of the FIFO draw order: a single open lot consumed
by a SELL in a FIFO year. -/
theorem fifo_draw_order_witness :
    ∃ ps, ([⟨⟨2020, 86400⟩, ⟨"2", "SELL", 1, 100⟩, ⟨2019, 0⟩, ⟨"1", "BUY", 1, 100⟩,
        Accounting.FIFO, 100, 100, 0, 0⟩] : List PairedSale) = [] ++ ps ∧
      (List.insertionSort chronoRel [(⟨2019, 0⟩, ⟨"1", "BUY", 1, 100⟩)]).Sorted chronoRel ∧
      (List.insertionSort chronoRel [(⟨2019, 0⟩, ⟨"1", "BUY", 1, 100⟩)]).Perm
        [(⟨2019, 0⟩, ⟨"1", "BUY", 1, 100⟩)] ∧
      ps.map (fun p => (p.buyDate, p.buyOrder.tradeId, p.buyOrder.price)) =
        ((List.insertionSort chronoRel [(⟨2019, 0⟩, ⟨"1", "BUY", 1, 100⟩)]).map fun x =>
          (x.1, x.2.tradeId, x.2.price)).take ps.length ∧
      (ps.map fun p => (p.buyDate.sec, p.buyOrder.tradeId)).Sorted fifoKeyRel :=
  fifo_draw_order [(2020, Accounting.FIFO)] ⟨[(⟨2019, 0⟩, ⟨"1", "BUY", 1, 100⟩)], []⟩
    ⟨2020, 86400⟩ ⟨"2", "SELL", 1, 100⟩
    ⟨[], [⟨⟨2020, 86400⟩, ⟨"2", "SELL", 1, 100⟩, ⟨2019, 0⟩, ⟨"1", "BUY", 1, 100⟩,
        Accounting.FIFO, 100, 100, 0, 0⟩]⟩
    rfl rfl
    (by
      norm_num [processOrder, List.insertionSort, List.orderedInsert, List.lookup,
        coverSale, mkPairedSale, timedeltaDays, Order.withSize]
      decide)

/-- Concrete instantiation of the holding-period boundary: a pair held exactly
365 days books its whole gain short-term, one held 366 days books it
long-term. -/
theorem holding_period_classification_witness :
    ((⟨⟨2021, 31536000⟩, ⟨"s", "SELL", 2, 50⟩, ⟨2020, 0⟩, ⟨"b", "BUY", 2, 25⟩,
        Accounting.HIFO, 100, 50, 50, 0⟩ : PairedSale).shortTermGains =
          (⟨"s", "SELL", 2, 50⟩ : Order).size * (⟨"s", "SELL", 2, 50⟩ : Order).price -
          (⟨"b", "BUY", 2, 25⟩ : Order).size * (⟨"b", "BUY", 2, 25⟩ : Order).price ∧
      (⟨⟨2021, 31536000⟩, ⟨"s", "SELL", 2, 50⟩, ⟨2020, 0⟩, ⟨"b", "BUY", 2, 25⟩,
        Accounting.HIFO, 100, 50, 50, 0⟩ : PairedSale).longTermGains = 0) ∧
    ((⟨⟨2021, 31622400⟩, ⟨"s", "SELL", 2, 50⟩, ⟨2020, 0⟩, ⟨"b", "BUY", 2, 25⟩,
        Accounting.HIFO, 100, 50, 0, 50⟩ : PairedSale).longTermGains =
          (⟨"s", "SELL", 2, 50⟩ : Order).size * (⟨"s", "SELL", 2, 50⟩ : Order).price -
          (⟨"b", "BUY", 2, 25⟩ : Order).size * (⟨"b", "BUY", 2, 25⟩ : Order).price ∧
      (⟨⟨2021, 31622400⟩, ⟨"s", "SELL", 2, 50⟩, ⟨2020, 0⟩, ⟨"b", "BUY", 2, 25⟩,
        Accounting.HIFO, 100, 50, 0, 50⟩ : PairedSale).shortTermGains = 0) := by
  have h365 : mkPairedSale ⟨2021, 31536000⟩ ⟨"s", "SELL", 2, 50⟩ ⟨2020, 0⟩
      ⟨"b", "BUY", 2, 25⟩ Accounting.HIFO =
      .ok ⟨⟨2021, 31536000⟩, ⟨"s", "SELL", 2, 50⟩, ⟨2020, 0⟩, ⟨"b", "BUY", 2, 25⟩,
        Accounting.HIFO, 100, 50, 50, 0⟩ := by
    have hd : timedeltaDays ⟨2021, 31536000⟩ ⟨2020, 0⟩ = 365 := by decide
    norm_num [mkPairedSale, hd]
  have h366 : mkPairedSale ⟨2021, 31622400⟩ ⟨"s", "SELL", 2, 50⟩ ⟨2020, 0⟩
      ⟨"b", "BUY", 2, 25⟩ Accounting.HIFO =
      .ok ⟨⟨2021, 31622400⟩, ⟨"s", "SELL", 2, 50⟩, ⟨2020, 0⟩, ⟨"b", "BUY", 2, 25⟩,
        Accounting.HIFO, 100, 50, 0, 50⟩ := by
    have hd : timedeltaDays ⟨2021, 31622400⟩ ⟨2020, 0⟩ = 366 := by decide
    norm_num [mkPairedSale, hd]
  exact ⟨(holding_period_classification _ _ _ _ _ _ h365).2.2.1 (by decide),
    (holding_period_classification _ _ _ _ _ _ h366).2.2.2 (by decide)⟩

/-- Concrete instantiation of the insufficiency failure: a lone SELL with no
open lots aborts the run with the constant assertion error. -/
theorem insufficient_lots_aborts_witness :
    pairSalesWithBuys [(⟨2020, 0⟩, ⟨"W", "SELL", 1, 7⟩)] [(2020, Accounting.HIFO)] 2020 =
      .error (.assertionError "current_buys cannot cover total_sold") :=
  insufficient_lots_aborts _ _ _ [] [] ⟨[], []⟩ ⟨2020, 0⟩ ⟨"W", "SELL", 1, 7⟩
    Accounting.HIFO
    (by norm_num [ordersToProcess, sortedOrders, List.insertionSort, List.orderedInsert,
      List.filter])
    rfl rfl (by decide) (by norm_num) (by simp) (by norm_num [sumSizes])

/-- Concrete instantiation of the unknown-side failure: an order with side
`HOLD` makes the run fail. -/
theorem invalid_side_aborts_witness :
    ∃ e, pairSalesWithBuys [(⟨2020, 0⟩, ⟨"1", "HOLD", 1, 5⟩)] [] 2020 = .error e :=
  invalid_side_aborts _ [] 2020 ⟨2020, 0⟩ ⟨"1", "HOLD", 1, 5⟩ (by simp) (by decide)
    (by decide) (by decide)

/-- Concrete instantiation of matched-pair independence: a previously emitted
pair survives a further BUY step unchanged. -/
theorem matched_pair_independence_witness :
    (∃ newPairs, ([⟨⟨2020, 0⟩, ⟨"0", "BUY", 0, 0⟩, ⟨2020, 0⟩, ⟨"0", "BUY", 0, 0⟩,
        Accounting.FIFO, 0, 0, 0, 0⟩] : List PairedSale) =
        [⟨⟨2020, 0⟩, ⟨"0", "BUY", 0, 0⟩, ⟨2020, 0⟩, ⟨"0", "BUY", 0, 0⟩,
          Accounting.FIFO, 0, 0, 0, 0⟩] ++ newPairs) ∧
      ([⟨⟨2020, 0⟩, ⟨"0", "BUY", 0, 0⟩, ⟨2020, 0⟩, ⟨"0", "BUY", 0, 0⟩,
        Accounting.FIFO, 0, 0, 0, 0⟩] : List PairedSale).take
        ([⟨⟨2020, 0⟩, ⟨"0", "BUY", 0, 0⟩, ⟨2020, 0⟩, ⟨"0", "BUY", 0, 0⟩,
          Accounting.FIFO, 0, 0, 0, 0⟩] : List PairedSale).length =
        [⟨⟨2020, 0⟩, ⟨"0", "BUY", 0, 0⟩, ⟨2020, 0⟩, ⟨"0", "BUY", 0, 0⟩,
          Accounting.FIFO, 0, 0, 0, 0⟩] :=
  matched_pair_independence [] [(⟨2021, 0⟩, ⟨"9", "BUY", 1, 3⟩)]
    ⟨[], [⟨⟨2020, 0⟩, ⟨"0", "BUY", 0, 0⟩, ⟨2020, 0⟩, ⟨"0", "BUY", 0, 0⟩,
      Accounting.FIFO, 0, 0, 0, 0⟩]⟩
    ⟨[(⟨2021, 0⟩, ⟨"9", "BUY", 1, 3⟩)], [⟨⟨2020, 0⟩, ⟨"0", "BUY", 0, 0⟩, ⟨2020, 0⟩,
      ⟨"0", "BUY", 0, 0⟩, Accounting.FIFO, 0, 0, 0, 0⟩]⟩
    rfl

/-- Concrete instantiation of the output ordering on a one-BUY run. -/
theorem output_ordering_witness :
    ∃ st, processOrders [] ⟨[], []⟩
        (ordersToProcess [(⟨2020, 0⟩, ⟨"1", "BUY", 1, 100⟩)] 2020) = .ok st ∧
      ([(⟨2020, 0⟩, ⟨"1", "BUY", 1, 100⟩)] : List DOrder) =
        List.insertionSort chronoRel st.currentBuys ++
          ordersToIgnore [(⟨2020, 0⟩, ⟨"1", "BUY", 1, 100⟩)] 2020 ∧
      (List.insertionSort chronoRel st.currentBuys).Sorted chronoRel ∧
      (List.insertionSort chronoRel st.currentBuys).Perm st.currentBuys ∧
      (∀ x ∈ ordersToIgnore [(⟨2020, 0⟩, ⟨"1", "BUY", 1, 100⟩)] 2020,
        (2020 : Int) < x.1.year) ∧
      ([] : List PairedSale) = st.pairedSales :=
  output_ordering [(⟨2020, 0⟩, ⟨"1", "BUY", 1, 100⟩)] [] 2020
    ([(⟨2020, 0⟩, ⟨"1", "BUY", 1, 100⟩)], [])
    (by norm_num [pairSalesWithBuys, processOrders, processOrder, ordersToProcess,
      ordersToIgnore, sortedOrders, originalTotalBuySize, sumSizes, sumSaleFrag,
      List.insertionSort, List.orderedInsert, List.filter])

/-- Concrete instantiation of the policy-map totality requirement: a SELL in
2021 with a policy map covering only 2020 fails with `KeyError 2021`. -/
theorem policy_map_totality_witness :
    processOrder [(2020, Accounting.HIFO)] ⟨[], []⟩ (⟨2021, 5⟩, ⟨"7", "SELL", 1, 3⟩) =
      .error (.keyError 2021) ∧
    ∃ e, pairSalesWithBuys [(⟨2021, 5⟩, ⟨"7", "SELL", 1, 3⟩)]
      [(2020, Accounting.HIFO)] 2021 = .error e :=
  policy_map_totality _ _ 2021 ⟨2021, 5⟩ ⟨"7", "SELL", 1, 3⟩ ⟨[], []⟩ (by simp) rfl
    (by decide) (by decide)
